import Mathlib

/-!
Shallow embedding of the hypercastle-bot core, translated from the TypeScript
source: the SQLite sale repository (durable queue and per-sale state machine),
the backoff policy and the orchestrator's failure handler, the posting
workflow's checkpoint steps, and the Twitter rate governor.

Conventions of the embedding:
  * SQLite rows are Lean structures; the sales table is a list of rows in
    insertion (rowid) order.  `INSERT OR IGNORE` on the primary key appends a
    row exactly when no row with that sale id exists.
  * JavaScript `number` values that hold unix times or counters are `Int`
    (`sanitize` in the source drops non-finite values before they are used);
    `undefined`/`null` is `Option.none`.
  * JavaScript truthiness tests on numbers (`x ?`) are `x ≠ 0` on present
    values, and truthiness on strings is `s ≠ ""`.
-/

namespace Bot

/-- Sale status values, per the sales table CHECK constraint. -/
inductive Status where
  | seen
  | queued
  | fetching_html
  | capturing_frames
  | rendering_video
  | uploading_media
  | posting
  | posted
  | failed
deriving DecidableEq

/-- Price of a sale (domain/models.ts). -/
structure Price where
  amount : Rat
  symbol : String
deriving DecidableEq

/-- Domain sale (domain/models.ts); the raw payload blob is represented by the
sale itself, which is what serializeSale/deserializeSale round-trip. -/
structure Sale where
  id : String
  tokenId : String
  name : Option String
  timestamp : Int
  price : Price
  orderSide : String
deriving DecidableEq

/-- One row of the sales table (001_init.sql / 002_retry_and_indexes.sql). -/
structure SaleRow where
  saleId : String
  createdAt : Int
  seenAt : Int
  enqueuedAt : Option Int
  postingAt : Option Int
  postedAt : Option Int
  status : Status
  tweetId : Option String
  tweetText : Option String
  payload : Sale
  nextAttemptAt : Option Int
  attemptCount : Option Int
  htmlPath : Option String
  framesDir : Option String
  videoPath : Option String
  mediaId : Option String
  metadataJson : Option String
  captureFps : Option Rat
deriving DecidableEq

/-- The sales table, in rowid (insertion) order. -/
abbrev Store := List SaleRow

/-- Artifact checkpoints carried by a claimed sale (domain/ports/saleRepository.ts). -/
structure Artifacts where
  htmlPath : Option String
  framesDir : Option String
  videoPath : Option String
  mediaId : Option String
  mediaUploadedAt : Option Int
  metadataJson : Option String
  captureFps : Option Rat
deriving DecidableEq

/-- A claimed sale as returned by claimNextReady (domain/ports/saleRepository.ts). -/
structure QueuedSale where
  sale : Sale
  attemptCount : Int
  tweetText : Option String
  artifacts : Artifacts
deriving DecidableEq

end Bot

namespace SqliteSaleRepository

open Bot

/-- Row written by seedSeen: columns (sale_id, created_at, seen_at, status, payload),
status 'seen'; attempt_count takes the schema default 0, everything else NULL. -/
def seenRow (sale : Sale) (seenAt : Int) : SaleRow :=
  { saleId := sale.id
    createdAt := sale.timestamp
    seenAt := seenAt
    enqueuedAt := none
    postingAt := none
    postedAt := none
    status := .seen
    tweetId := none
    tweetText := none
    payload := sale
    nextAttemptAt := none
    attemptCount := some 0
    htmlPath := none
    framesDir := none
    videoPath := none
    mediaId := none
    metadataJson := none
    captureFps := none }

/-- Row written by enqueueNew: additionally enqueued_at = seenAt,
next_attempt_at = 0 and status 'queued'. -/
def queuedRow (sale : Sale) (seenAt : Int) : SaleRow :=
  { seenRow sale seenAt with
    enqueuedAt := some seenAt
    nextAttemptAt := some 0
    status := .queued }

/-- Is a row with this sale id present (sale_id is the primary key)? -/
def hasId (s : Store) (id : String) : Bool :=
  s.any fun r => r.saleId == id

/-- INSERT OR IGNORE: append the row unless the primary key is taken; the second
component is the statement's change count (res.changes). -/
def insertIfAbsent (s : Store) (row : SaleRow) : Store × Nat :=
  if hasId s row.saleId then (s, 0) else (s ++ [row], 1)

/-- seedSeen(sales, seenAt): bulk INSERT OR IGNORE with status 'seen'. -/
def seedSeen (sales : List Sale) (seenAt : Int) (s : Store) : Store :=
  match sales with
  | [] => s
  | sale :: rest => seedSeen rest seenAt (insertIfAbsent s (seenRow sale seenAt)).1

/-- enqueueNew(sales, seenAt): INSERT OR IGNORE each sale with status 'queued',
returning the number of rows actually inserted (res.changes summed). -/
def enqueueNew (sales : List Sale) (seenAt : Int) (s : Store) : Store × Nat :=
  match sales with
  | [] => (s, 0)
  | sale :: rest =>
    let ins := insertIfAbsent s (queuedRow sale seenAt)
    let next := enqueueNew rest seenAt ins.1
    (next.1, ins.2 + next.2)

/-- The status set of claimNextReady's WHERE clause:
status IN ('queued','fetching_html','capturing_frames','rendering_video','uploading_media','posting'). -/
def inProgress (st : Status) : Bool :=
  match st with
  | .queued => true
  | .fetching_html => true
  | .capturing_frames => true
  | .rendering_video => true
  | .uploading_media => true
  | .posting => true
  | _ => false

/-- claimNextReady's row filter: in-progress status and
(next_attempt_at IS NULL OR next_attempt_at <= now). -/
def ready (now : Int) (r : SaleRow) : Bool :=
  inProgress r.status &&
    (match r.nextAttemptAt with
     | none => true
     | some t => decide (t ≤ now))

/-- ORDER BY created_at ASC LIMIT 1: the leftmost row with minimal created_at. -/
def selectOldest : List SaleRow → Option SaleRow
  | [] => none
  | r :: rs =>
    match selectOldest rs with
    | none => some r
    | some b => if b.createdAt < r.createdAt then some b else some r

/-- The SELECT of claimNextReady. -/
def claimSelect (s : Store) (now : Int) : Option SaleRow :=
  selectOldest (s.filter (ready now))

/-- The conditional UPDATE of claimNextReady: SET posting_at = now on the row
with the given sale id if it still satisfies the claim filter; the second
component is the update's change count. -/
def claimUpdate (s : Store) (id : String) (now : Int) : Store × Nat :=
  (s.map fun r =>
     if r.saleId == id && ready now r then { r with postingAt := some now } else r,
   (s.filter fun r => r.saleId == id && ready now r).length)

/-- Conversion of a selected row to the returned QueuedSale; JS
`row.attempt_count ? Number(row.attempt_count) : 0` maps NULL and 0 to 0.
The old repository revision's SELECT has no media_uploaded_at column. -/
def toQueuedSale (r : SaleRow) : QueuedSale :=
  { sale := r.payload
    attemptCount :=
      match r.attemptCount with
      | some n => if n = 0 then 0 else n
      | none => 0
    tweetText := r.tweetText
    artifacts :=
      { htmlPath := r.htmlPath
        framesDir := r.framesDir
        videoPath := r.videoPath
        mediaId := r.mediaId
        mediaUploadedAt := none
        metadataJson := r.metadataJson
        captureFps := r.captureFps } }

/-- claimNextReady with the read and the conditional write possibly seeing
different store states (a concurrent writer may run between them): select on
`sRead`, conditionally update on `sWrite`, and return "no sale" when the
update's change count is zero.  No internal retry. -/
def claimNextReady2 (sRead sWrite : Store) (now : Int) : Store × Option QueuedSale :=
  match claimSelect sRead now with
  | none => (sWrite, none)
  | some row =>
    let upd := claimUpdate sWrite row.saleId now
    if upd.2 = 0 then (upd.1, none) else (upd.1, some (toQueuedSale row))

/-- claimNextReady(now) in the single-process interleaving. -/
def claimNextReady (s : Store) (now : Int) : Store × Option QueuedSale :=
  claimNextReady2 s s now

/-- markPosted(saleId, tweetId, tweetText, postedAt). -/
def markPosted (id : String) (tweetId : Option String) (tweetText : String)
    (postedAt : Int) (s : Store) : Store :=
  s.map fun r =>
    if r.saleId == id then
      { r with status := .posted, postedAt := some postedAt, tweetId := tweetId,
               tweetText := some tweetText, postingAt := none, nextAttemptAt := none }
    else r

/-- requeueAfterRateLimit(saleId): the repository revision in the source takes
no reset-time argument and runs
UPDATE sales SET posting_at=NULL, next_attempt_at=NULL WHERE sale_id=?. -/
def requeueAfterRateLimit (id : String) (s : Store) : Store :=
  s.map fun r =>
    if r.saleId == id then { r with postingAt := none, nextAttemptAt := none } else r

/-- scheduleRetry(saleId, nextAttemptAt):
UPDATE sales SET posting_at=NULL, next_attempt_at=?, attempt_count=COALESCE(attempt_count,0)+1. -/
def scheduleRetry (id : String) (nextAttemptAt : Int) (s : Store) : Store :=
  s.map fun r =>
    if r.saleId == id then
      { r with postingAt := none, nextAttemptAt := some nextAttemptAt,
               attemptCount := some (r.attemptCount.getD 0 + 1) }
    else r

/-- updateStatus(saleId, status). -/
def updateStatus (id : String) (st : Status) (s : Store) : Store :=
  s.map fun r => if r.saleId == id then { r with status := st } else r

end SqliteSaleRepository

namespace BotService

open Bot SqliteSaleRepository

/-- computeBackoffSeconds (application/backoff.ts):
min(30*60, 2^attempts * 60 || 60).  Attempt counts are non-negative (the
attempt_count column defaults to 0 and is only ever incremented). -/
def computeBackoffSeconds (attempts : Nat) : Int :=
  let base : Int := 2 ^ attempts * 60
  min (30 * 60) (if base = 0 then 60 else base)

/-- The orchestrator's non-rate-limit failure branch (botService.ts,
postAvailable): delay = computeBackoffSeconds(queued.attemptCount),
then repo.scheduleRetry(queued.sale.id, now + delay). -/
def handleTransientFailure (now : Int) (q : QueuedSale) (s : Store) : Store :=
  scheduleRetry q.sale.id (now + computeBackoffSeconds q.attemptCount.toNat) s

end BotService

namespace PostingWorkflow

open Bot

/-- JS truthiness of a nullable string: present and non-empty. -/
def strTruthy (s : Option String) : Bool :=
  match s with
  | some v => v != ""
  | none => false

/-- Outcome of ensureHtml: whether the HTML producer was invoked, what was
persisted through setHtmlPath, and the returned path. -/
structure HtmlStep where
  calledProducer : Bool
  persistedPath : Option String
  result : String
deriving DecidableEq

/-- ensureHtml (postingWorkflow): `if (existing) return existing;` else call
fetchParcelHtml and persist the produced file path. -/
def ensureHtml (existing : Option String) (producedPath : String) : HtmlStep :=
  if strTruthy existing then
    { calledProducer := false, persistedPath := none, result := existing.getD "" }
  else
    { calledProducer := true, persistedPath := some producedPath, result := producedPath }

/-- Media-id TTL (postingWorkflow.ensureMediaUpload): 24 hours. -/
def MEDIA_TTL_SEC : Int := 24 * 3600

/-- Outcome of ensureMediaUpload: whether the checkpointed id was reused,
whether clearMediaUpload ran, whether a fresh upload ran (and the persisted
upload timestamp), and the returned media id. -/
structure MediaStep where
  reusedExisting : Bool
  clearedCheckpoint : Bool
  uploadedFresh : Bool
  persistedUploadedAt : Option Int
  result : String
deriving DecidableEq

/-- ensureMediaUpload (postingWorkflow):
`expiresAt = uploadedAt ? uploadedAt + 24*3600 : null`;
reuse iff the existing id and expiresAt are truthy and now < expiresAt;
otherwise clear the checkpoint when an id exists, then upload fresh and
persist (mediaId, now). -/
def ensureMediaUpload (existing : Option String) (uploadedAt : Option Int)
    (now : Int) (freshId : String) : MediaStep :=
  let expiresAt : Option Int :=
    match uploadedAt with
    | some t => if t ≠ 0 then some (t + MEDIA_TTL_SEC) else none
    | none => none
  let stillFresh : Bool :=
    match expiresAt with
    | some e => decide (e ≠ 0) && decide (now < e)
    | none => false
  if strTruthy existing && stillFresh then
    { reusedExisting := true, clearedCheckpoint := false, uploadedFresh := false,
      persistedUploadedAt := none, result := existing.getD "" }
  else
    { reusedExisting := false, clearedCheckpoint := strTruthy existing,
      uploadedFresh := true, persistedUploadedAt := some now, result := freshId }

end PostingWorkflow

namespace RateControl

/-- Persisted rate state for an endpoint (infra/twitter/rateControl.ts). -/
structure RateState where
  limit : Option Int := none
  remaining : Option Int := none
  reset : Option Int := none
  lastSpentAt : Option Int := none
  storedAt : Option Int := none
deriving DecidableEq

/-- ENDPOINT_CONFIG.post.limit. -/
def CFG_LIMIT : Int := 17

/-- ENDPOINT_CONFIG.post.reserve. -/
def RESERVE : Int := 1

/-- RESET_BUFFER_SEC. -/
def RESET_BUFFER_SEC : Int := 60

/-- FALLBACK_SLOT_SEC = Math.ceil(86400 / ENDPOINT_CONFIG.post.limit). -/
def FALLBACK_SLOT_SEC : Int := Int.ofNat ((86400 + 17 - 1) / 17)

/-- sanitize: non-finite components are dropped (all model values are finite
integers) and remaining is clamped to `Math.max(0, ...)`. -/
def sanitize (s : RateState) : RateState :=
  { s with remaining := s.remaining.map fun n => max 0 n }

/-- The error value thrown as RateLimitExceededError(resetAt, remaining, limit). -/
structure RateLimitErr where
  resetAt : Int
  remaining : Int
  limit : Int
deriving DecidableEq

/-- loadAndRefresh: load and sanitize the stored record; if the stored reset is
truthy and now ≥ reset, observe the full allowance with the reset cleared,
persisting the refreshed record when remaining actually changed.  Returns
(observed state, persisted state after the call). -/
def loadAndRefresh (stored : RateState) (now : Int) : RateState × RateState :=
  let state := sanitize stored
  match state.reset with
  | some r =>
    if r ≠ 0 ∧ now ≥ r then
      let lim := state.limit.getD CFG_LIMIT
      let refreshed : RateState :=
        { limit := some lim, remaining := some lim, reset := none,
          lastSpentAt := state.lastSpentAt, storedAt := some now }
      if state.remaining ≠ refreshed.remaining then (refreshed, refreshed)
      else (refreshed, stored)
    else (state, stored)
  | none => (state, stored)

/-- snapshot(endpoint) = loadAndRefresh's observed state. -/
def snapshot (stored : RateState) (now : Int) : RateState :=
  (loadAndRefresh stored now).1

/-- guard(endpoint): refresh, then throw RateLimitExceededError iff the
effective remaining allowance is ≤ the reserve; a synthetic safe reset
(stored future reset, or max(lastSpent, now) + fallback slot, plus the buffer)
is carried in the error and persisted when no valid future reset was stored.
Returns (thrown error or returned state, persisted state after the call). -/
def guard (stored : RateState) (now : Int) :
    Except RateLimitErr RateState × RateState :=
  let lr := loadAndRefresh stored now
  let state := lr.1
  let limit := state.limit.getD CFG_LIMIT
  let remaining := state.remaining.getD limit
  if remaining ≤ RESERVE then
    let lastSpent := state.lastSpentAt.getD now
    let resetAt :=
      match state.reset with
      | some r =>
        if r ≠ 0 ∧ r > now then r
        else max (lastSpent + FALLBACK_SLOT_SEC) (now + FALLBACK_SLOT_SEC)
      | none => max (lastSpent + FALLBACK_SLOT_SEC) (now + FALLBACK_SLOT_SEC)
    let safeReset := resetAt + RESET_BUFFER_SEC
    let stale : Bool :=
      match state.reset with
      | some r => r == 0 || decide (r ≤ now)
      | none => true
    let persisted :=
      if stale then
        { state with remaining := some remaining, reset := some safeReset,
                     lastSpentAt := some lastSpent, storedAt := some now }
      else lr.2
    (Except.error { resetAt := safeReset, remaining := remaining, limit := limit },
     persisted)
  else
    (Except.ok state, lr.2)

/-- decrement: pessimistic local spend of one slot when no telemetry parsed. -/
def decrement (state : RateState) (fallbackLimit : Int) : RateState :=
  let limit := state.limit.getD fallbackLimit
  let remaining :=
    match state.remaining with
    | some x => max 0 (x - 1)
    | none => limit - 1
  { state with limit := some limit, remaining := some remaining }

end RateControl

namespace RateControl

/-- A JavaScript value as fed through Number(): either it converts to a finite
number or it does not (NaN, which sanitize later drops). -/
inductive JsVal where
  | num (n : Int)
  | nonNum
deriving DecidableEq

/-- Number(v) for a defined value, as an optional finite integer. -/
def toNum : Option JsVal → Option Int
  | some (.num n) => some n
  | some .nonNum => none
  | none => none

/-- The three response headers read for one prefix (`prefix-limit`,
`prefix-remaining`, `prefix-reset`); `none` is an absent header. -/
structure HeaderBucket where
  limitH : Option JsVal
  remainingH : Option JsVal
  resetH : Option JsVal
deriving DecidableEq

/-- The three header families parseRate probes, in precedence order:
x-user-limit-24hour-\*, x-app-limit-24hour-\*, x-rate-limit-\*. -/
structure RateHeaders where
  user24 : HeaderBucket
  app24 : HeaderBucket
  std : HeaderBucket
deriving DecidableEq

mutual
/-- A telemetry object as parseRate reads it: optional headers, the resolved
`rateLimit || rateLimits` sub-object, the `userDay` sub-object, and the bare
limit / remaining / reset / resetMs fields. -/
inductive RawRate where
  | mk (headers : Option RateHeaders) (rateLimit : RawSub) (userDay : RawSub)
       (limit remaining reset resetMs : Option JsVal)

/-- An optional nested telemetry object (objects are always truthy in JS). -/
inductive RawSub where
  | absent
  | present (sub : RawRate)
end

/-- sanitize applied to the triple parseRate builds: limit and reset pass
through when finite, remaining is clamped to max(0, ...). -/
def sanitizeTriple (l r s : Option Int) : RateState :=
  { limit := l, remaining := r.map fun n => max 0 n, reset := s,
    lastSpentAt := none, storedAt := none }

/-- The `extract` helper: a bucket parses only when all three headers are
defined; the values then go through Number() and sanitize. -/
def extractBucket (b : HeaderBucket) : Option RateState :=
  if b.limitH ≠ none ∧ b.remainingH ≠ none ∧ b.resetH ≠ none then
    some (sanitizeTriple (toNum b.limitH) (toNum b.remainingH) (toNum b.resetH))
  else none

/-- Header precedence: user 24h bucket, then app 24h bucket, then the standard
generic bucket. -/
def headerRate (h : RateHeaders) : Option RateState :=
  match extractBucket h.user24 with
  | some v => some v
  | none =>
    match extractBucket h.app24 with
    | some v => some v
    | none => extractBucket h.std

/-- Math.ceil(n / 1000) on an integer. -/
def ceilDiv1000 (n : Int) : Int :=
  (n + 999).ediv 1000

/-- The bare-fields branch of parseRate: requires limit and remaining defined;
reset = obj.reset ?? obj.resetMs, and when obj.resetMs is defined the coalesced
value is divided by 1000 and rounded up. -/
def bareRate (limit remaining reset resetMs : Option JsVal) : Option RateState :=
  if limit ≠ none ∧ remaining ≠ none then
    let coalesced := match reset with
      | some v => some v
      | none => resetMs
    let resetVal : Option Int :=
      match coalesced with
      | none => none
      | some v =>
        if resetMs ≠ none then (toNum (some v)).map ceilDiv1000
        else toNum (some v)
    some (sanitizeTriple (toNum limit) (toNum remaining) resetVal)
  else none

/-- The header phase of parseRate: nothing when the object has no headers. -/
def headersRate (h : Option RateHeaders) : Option RateState :=
  match h with
  | some v => headerRate v
  | none => none

/-- parseRate (infra/twitter/rateControl.ts): headers first (user 24h bucket,
app 24h bucket, generic bucket), then recursion into `rateLimit || rateLimits`,
then recursion into `userDay`, then the bare fields. -/
def parseRate : RawRate → Option RateState
  | .mk headers rateLimit userDay limit remaining reset resetMs =>
    match headersRate headers with
    | some v => some v
    | none =>
      match rateLimit with
      | .present sub => parseRate sub
      | .absent =>
        match userDay with
        | .present sub => parseRate sub
        | .absent => bareRate limit remaining reset resetMs

/-- onSuccess(endpoint, rawTelemetry): parsed telemetry replaces the state;
otherwise pessimistically decrement the refreshed state, stamping
lastSpentAt/storedAt either way.  Returns (returned state, persisted state). -/
def onSuccess (stored : RateState) (now : Int) (raw : Option RawRate) :
    RateState × RateState :=
  let info := raw.bind parseRate
  let current := (loadAndRefresh stored now).1
  let next : RateState :=
    match info with
    | some i =>
      { limit := i.limit, remaining := i.remaining, reset := i.reset,
        lastSpentAt := some now, storedAt := some now }
    | none =>
      { decrement current CFG_LIMIT with lastSpentAt := some now, storedAt := some now }
  (next, next)

/-- onError(endpoint, rawTelemetry): parsed telemetry replaces the state; the
degrade case zeroes remaining and keeps the current reset if it is a truthy
future time, else falls back to now + FALLBACK_SLOT_SEC.
Returns (returned state, persisted state). -/
def onError (stored : RateState) (now : Int) (raw : Option RawRate) :
    RateState × RateState :=
  let info := raw.bind parseRate
  let current := (loadAndRefresh stored now).1
  let next : RateState :=
    match info with
    | some i =>
      { limit := i.limit, remaining := i.remaining, reset := i.reset,
        lastSpentAt := some now, storedAt := some now }
    | none =>
      { current with
        remaining := some 0,
        reset := some (match current.reset with
          | some r => if r ≠ 0 ∧ r > now then r else now + FALLBACK_SLOT_SEC
          | none => now + FALLBACK_SLOT_SEC),
        lastSpentAt := some now, storedAt := some now }
  (next, next)

end RateControl

section WorkflowClaims

/-- C9: pipeline step 1 is resumable.  A sale whose htmlPath checkpoint is
persisted (a checkpoint written by setHtmlPath is a non-empty path) gets that
path back from ensureHtml with the HTML producer not invoked; when the
checkpoint is absent the producer runs and the produced path is persisted. -/
theorem claim_C9_ensure_html_resumable (p produced : String) (hp : p ≠ "") :
    PostingWorkflow.ensureHtml (some p) produced =
      { calledProducer := false, persistedPath := none, result := p } ∧
    PostingWorkflow.ensureHtml none produced =
      { calledProducer := true, persistedPath := some produced, result := produced } := by
  constructor
  · simp [PostingWorkflow.ensureHtml, PostingWorkflow.strTruthy, hp]
  · simp [PostingWorkflow.ensureHtml, PostingWorkflow.strTruthy]

/-- Witness for C9 at a concrete checkpointed path. -/
theorem claim_C9_witness :
    PostingWorkflow.ensureHtml (some "data/artifacts/s1/1.html") "data/made.html" =
      { calledProducer := false, persistedPath := none,
        result := "data/artifacts/s1/1.html" } ∧
    PostingWorkflow.ensureHtml none "data/made.html" =
      { calledProducer := true, persistedPath := some "data/made.html",
        result := "data/made.html" } :=
  claim_C9_ensure_html_resumable "data/artifacts/s1/1.html" "data/made.html" (by decide)

/-- C10: a checkpointed media id (non-empty, as written by setMediaId) whose
upload timestamp is missing is never reused: the checkpoint is cleared and a
fresh upload runs, exactly as for an id whose 24-hour TTL has expired. -/
theorem claim_C10_media_reupload_on_missing_timestamp (m fresh : String) (now : Int)
    (hm : m ≠ "") :
    PostingWorkflow.ensureMediaUpload (some m) none now fresh =
      { reusedExisting := false, clearedCheckpoint := true, uploadedFresh := true,
        persistedUploadedAt := some now, result := fresh } ∧
    (∀ t : Int, 0 < t → t + PostingWorkflow.MEDIA_TTL_SEC ≤ now →
      PostingWorkflow.ensureMediaUpload (some m) (some t) now fresh =
        PostingWorkflow.ensureMediaUpload (some m) none now fresh) := by
  constructor
  · simp [PostingWorkflow.ensureMediaUpload, PostingWorkflow.strTruthy, hm]
  · intro t ht hexp
    have hfresh : ¬ (now < t + PostingWorkflow.MEDIA_TTL_SEC) := by omega
    simp only [PostingWorkflow.ensureMediaUpload, PostingWorkflow.strTruthy]
    rw [if_pos (by omega : t ≠ 0)]
    simp [hfresh]

/-- Witness for C10 at a concrete media id, missing and expired timestamps. -/
theorem claim_C10_witness :
    PostingWorkflow.ensureMediaUpload (some "m1") none 200000 "m2" =
      { reusedExisting := false, clearedCheckpoint := true, uploadedFresh := true,
        persistedUploadedAt := some 200000, result := "m2" } ∧
    PostingWorkflow.ensureMediaUpload (some "m1") (some 100) 200000 "m2" =
      PostingWorkflow.ensureMediaUpload (some "m1") none 200000 "m2" :=
  ⟨(claim_C10_media_reupload_on_missing_timestamp "m1" "m2" 200000 (by decide)).1,
   (claim_C10_media_reupload_on_missing_timestamp "m1" "m2" 200000 (by decide)).2
     100 (by decide) (by decide)⟩

end WorkflowClaims

section RateClaims

open RateControl in
/-- A persistable governor record with a stored reset of 0 (a value sanitize
keeps and parsed telemetry can produce). -/
def cex4 : RateControl.RateState :=
  { limit := some 17
    remaining := some 3
    reset := some 0
    lastSpentAt := none
    storedAt := none }

/-- C4 counterexample: at a persisted state whose stored reset is 0, any read
time now satisfies now ≥ storedReset, yet the next read returns the stale
remaining (3, not the limit 17) and the reset is not cleared — the JS guard
`state.reset && now >= state.reset` treats the reset 0 as absent. -/
theorem claim_C4_counterexample :
    cex4.reset = some 0 ∧ (100 : Int) ≥ 0 ∧
    RateControl.snapshot cex4 100 =
      { limit := some 17, remaining := some 3, reset := some 0,
        lastSpentAt := none, storedAt := none } ∧
    (RateControl.snapshot cex4 100).remaining ≠ (RateControl.snapshot cex4 100).limit ∧
    (RateControl.snapshot cex4 100).reset ≠ none := by
  refine ⟨rfl, by decide, by decide, by decide, by decide⟩

/-- C4 (amended): for every persisted rate state whose stored reset is nonzero
and satisfies now ≥ storedReset, the next read — loadAndRefresh, which guard,
onSuccess, onError and snapshot all read through — observes remaining equal to
the full limit and the reset cleared, with no new telemetry supplied. -/
theorem claim_C4_self_healing (stored : RateControl.RateState) (now r : Int)
    (hr : stored.reset = some r) (hr0 : r ≠ 0) (hnow : now ≥ r) :
    (RateControl.loadAndRefresh stored now).1.limit =
      some (stored.limit.getD RateControl.CFG_LIMIT) ∧
    (RateControl.loadAndRefresh stored now).1.remaining =
      some (stored.limit.getD RateControl.CFG_LIMIT) ∧
    (RateControl.loadAndRefresh stored now).1.remaining =
      (RateControl.loadAndRefresh stored now).1.limit ∧
    (RateControl.loadAndRefresh stored now).1.reset = none ∧
    RateControl.snapshot stored now = (RateControl.loadAndRefresh stored now).1 := by
  obtain ⟨lim, rem, rst, ls, st⟩ := stored
  simp only at hr
  subst hr
  simp only [RateControl.snapshot, RateControl.loadAndRefresh, RateControl.sanitize]
  rw [if_pos ⟨hr0, hnow⟩]
  split <;> simp

/-- Witness for C4 (amended) at a concrete stale stored state. -/
theorem claim_C4_witness :
    (RateControl.loadAndRefresh
      { limit := some 17, remaining := some 2, reset := some 5000,
        lastSpentAt := some 4000, storedAt := some 4000 } 6000).1.remaining = some 17 ∧
    (RateControl.loadAndRefresh
      { limit := some 17, remaining := some 2, reset := some 5000,
        lastSpentAt := some 4000, storedAt := some 4000 } 6000).1.reset = none :=
  ⟨(claim_C4_self_healing _ 6000 5000 rfl (by decide) (by decide)).2.1,
   (claim_C4_self_healing _ 6000 5000 rfl (by decide) (by decide)).2.2.2.1⟩

end RateClaims

/-- The allowance guard sees after the lazy refresh:
remaining ?? (limit ?? ENDPOINT_CONFIG.post.limit). -/
def effRemaining (stored : RateControl.RateState) (now : Int) : Int :=
  (RateControl.snapshot stored now).remaining.getD
    ((RateControl.snapshot stored now).limit.getD RateControl.CFG_LIMIT)

/-- The rate-limit condition guard raises, if any. -/
def guardRaised (stored : RateControl.RateState) (now : Int) :
    Option RateControl.RateLimitErr :=
  match (RateControl.guard stored now).1 with
  | .error e => some e
  | .ok _ => none

/-- The spec scenario state for C5: {limit:17, remaining:1, reset:5000}. -/
def gsc5 : RateControl.RateState :=
  { limit := some 17
    remaining := some 1
    reset := some 5000
    lastSpentAt := none
    storedAt := none }

/-- C5: guard raises iff the effective remaining allowance is ≤ the reserve,
the raised condition carries the observed remaining and limit, at
remaining = reserve + 1 it returns the refreshed state without raising, and on
the spec scenario (limit 17, remaining 1, reset 5000, now 4000) it raises with
resetAt = 5060 ≥ stored reset + 60-second buffer. -/
theorem claim_C5_guard_iff_reserve :
    (∀ stored now, guardRaised stored now ≠ none ↔
        effRemaining stored now ≤ RateControl.RESERVE) ∧
    (∀ stored now e, guardRaised stored now = some e →
        e.remaining = effRemaining stored now ∧
        e.limit = (RateControl.snapshot stored now).limit.getD RateControl.CFG_LIMIT) ∧
    (∀ stored now, effRemaining stored now = RateControl.RESERVE + 1 →
        (RateControl.guard stored now).1 = Except.ok (RateControl.snapshot stored now)) ∧
    guardRaised gsc5 4000 = some { resetAt := 5060, remaining := 1, limit := 17 } ∧
    (5060 : Int) ≥ 5000 + RateControl.RESET_BUFFER_SEC := by
  have hguard : ∀ stored now, effRemaining stored now ≤ RateControl.RESERVE →
      ∃ e, (RateControl.guard stored now).1 = Except.error e ∧
        e.remaining = effRemaining stored now ∧
        e.limit = (RateControl.snapshot stored now).limit.getD RateControl.CFG_LIMIT := by
    intro stored now h
    simp only [effRemaining, RateControl.snapshot] at h
    simp only [RateControl.guard]
    rw [if_pos h]
    exact ⟨_, rfl, rfl, rfl⟩
  have hok : ∀ stored now, ¬ effRemaining stored now ≤ RateControl.RESERVE →
      (RateControl.guard stored now).1 = Except.ok (RateControl.snapshot stored now) := by
    intro stored now h
    simp only [effRemaining, RateControl.snapshot] at h
    simp only [RateControl.guard]
    rw [if_neg h]
    simp [RateControl.snapshot]
  refine ⟨?_, ?_, ?_, ?_, by decide⟩
  · intro stored now
    constructor
    · intro hne
      by_contra h
      have := hok stored now h
      simp [guardRaised, this] at hne
    · intro h
      obtain ⟨e, he, -, -⟩ := hguard stored now h
      simp [guardRaised, he]
  · intro stored now e he
    by_cases h : effRemaining stored now ≤ RateControl.RESERVE
    · obtain ⟨e2, he2, hrem, hlim⟩ := hguard stored now h
      simp [guardRaised, he2] at he
      subst he
      exact ⟨hrem, hlim⟩
    · have := hok stored now h
      simp [guardRaised, this] at he
  · intro stored now h
    exact hok stored now (by omega)
  · exact (by decide : guardRaised gsc5 4000 =
      some { resetAt := 5060, remaining := 1, limit := 17 })

/-- Witness for C5: the iff and the no-raise branch at concrete states. -/
theorem claim_C5_witness :
    (guardRaised gsc5 4000 ≠ none) ∧
    (RateControl.guard
      { limit := some 17, remaining := some 2, reset := some 5000,
        lastSpentAt := none, storedAt := none } 4000).1 =
      Except.ok (RateControl.snapshot
        { limit := some 17, remaining := some 2, reset := some 5000,
          lastSpentAt := none, storedAt := none } 4000) :=
  ⟨(claim_C5_guard_iff_reserve.1 gsc5 4000).mpr (by decide),
   claim_C5_guard_iff_reserve.2.2.1 _ 4000 (by decide)⟩

/-- A stored governor record whose reset is still far in the future. -/
def cex8 : RateControl.RateState :=
  { limit := some 17
    remaining := some 5
    reset := some 11000
    lastSpentAt := none
    storedAt := none }

/-- C8 counterexample: onError with unparseable telemetry at now = 1000 on a
stored state whose reset 11000 is still in the future persists reset 11000,
not now + fallbackSlotDuration = 1000 + 5083 as the claim requires. -/
theorem claim_C8_counterexample :
    (RateControl.onError cex8 1000 none).1.remaining = some 0 ∧
    (RateControl.onError cex8 1000 none).1.reset = some 11000 ∧
    (RateControl.onError cex8 1000 none).2 = (RateControl.onError cex8 1000 none).1 ∧
    some (11000 : Int) ≠ some (1000 + RateControl.FALLBACK_SLOT_SEC) := by
  refine ⟨by decide, by decide, by decide, by decide⟩

/-- C8 (amended): when the telemetry does not parse, onError persists
remaining = 0 and a reset equal to the current (refreshed) reset when that is a
nonzero time strictly in the future, and now + fallbackSlotDuration otherwise;
when the telemetry parses, the parsed values replace the stored state. -/
theorem claim_C8_on_error (stored : RateControl.RateState) (now : Int)
    (raw : Option RateControl.RawRate) :
    (raw.bind RateControl.parseRate = none →
      (RateControl.onError stored now raw).1.remaining = some 0 ∧
      (RateControl.onError stored now raw).1.reset =
        some (match (RateControl.loadAndRefresh stored now).1.reset with
          | some r => if r ≠ 0 ∧ r > now then r else now + RateControl.FALLBACK_SLOT_SEC
          | none => now + RateControl.FALLBACK_SLOT_SEC) ∧
      (RateControl.onError stored now raw).2 = (RateControl.onError stored now raw).1) ∧
    (∀ i, raw.bind RateControl.parseRate = some i →
      (RateControl.onError stored now raw).1 =
        { limit := i.limit, remaining := i.remaining, reset := i.reset,
          lastSpentAt := some now, storedAt := some now } ∧
      (RateControl.onError stored now raw).2 = (RateControl.onError stored now raw).1) := by
  constructor
  · intro hnone
    simp [RateControl.onError, hnone]
  · intro i hsome
    simp [RateControl.onError, hsome]

/-- A stored governor record with no reset at all. -/
def st8b : RateControl.RateState :=
  { limit := some 17
    remaining := some 5
    reset := none
    lastSpentAt := none
    storedAt := none }

/-- A concrete parseable telemetry object with bare limit/remaining/reset. -/
def c8raw : Option RateControl.RawRate :=
  some (.mk none .absent .absent (some (.num 17)) (some (.num 9))
    (some (.num 7000)) none)

/-- What c8raw parses to. -/
def c8info : RateControl.RateState :=
  { limit := some 17
    remaining := some 9
    reset := some 7000
    lastSpentAt := none
    storedAt := none }

/-- Witness for C8 at concrete telemetry: absent telemetry on a state with no
stored reset, and parsed telemetry replacing the state. -/
theorem claim_C8_witness :
    (RateControl.onError st8b 1000 none).1.reset =
      some (1000 + RateControl.FALLBACK_SLOT_SEC) ∧
    (RateControl.onError cex8 1000 c8raw).1 =
      { limit := some 17, remaining := some 9, reset := some 7000,
        lastSpentAt := some 1000, storedAt := some 1000 } := by
  constructor
  · have h := (claim_C8_on_error st8b 1000 none).1 rfl
    simpa [st8b, RateControl.loadAndRefresh, RateControl.sanitize] using h.2.1
  · have h := ((claim_C8_on_error cex8 1000 c8raw).2 c8info rfl).1
    simpa [c8info] using h

/-- A complete per-user daily header bucket for the C7 witness. -/
def c7user : RateControl.HeaderBucket :=
  { limitH := some (.num 100), remainingH := some (.num 40), resetH := some (.num 500) }

/-- A complete generic rate header bucket for the C7 witness. -/
def c7std : RateControl.HeaderBucket :=
  { limitH := some (.num 900), remainingH := some (.num 800), resetH := some (.num 700) }

/-- An empty header bucket. -/
def c7none : RateControl.HeaderBucket :=
  { limitH := none, remainingH := none, resetH := none }

/-- A telemetry object carrying both a complete per-user daily bucket and a
complete generic bucket. -/
def c7raw : RateControl.RawRate :=
  .mk (some { user24 := c7user, app24 := c7none, std := c7std }) .absent .absent
    none none none none

/-- Unfolding equation for parseRate on a constructor. -/
theorem parseRate_mk_eq (headers rl ud l r s sm) :
    RateControl.parseRate (.mk headers rl ud l r s sm) =
      (match RateControl.headersRate headers with
       | some v => some v
       | none =>
         match rl with
         | .present sub => RateControl.parseRate sub
         | .absent =>
           match ud with
           | .present sub => RateControl.parseRate sub
           | .absent => RateControl.bareRate l r s sm) := by
  cases rl with
  | present sub => rw [RateControl.parseRate.eq_1]
  | absent =>
    cases ud with
    | present sub => rw [RateControl.parseRate.eq_2]
    | absent => rw [RateControl.parseRate.eq_3]

/-- C7: parseRate precedence.  A complete per-user 24h header bucket wins over
everything; failing that a complete per-app 24h bucket; failing that the
generic rate bucket; with no usable header bucket a nested rateLimit/rateLimits
object is recursed into; and with none of those present the bare
limit/remaining/reset fields are used.  In particular, with both a per-user-day
bucket and a generic bucket present, the per-user-day values are returned. -/
theorem claim_C7_parse_precedence :
    (∀ (h : RateControl.RateHeaders) rl ud l r s sm v,
        RateControl.extractBucket h.user24 = some v →
        RateControl.parseRate (.mk (some h) rl ud l r s sm) = some v) ∧
    (∀ (h : RateControl.RateHeaders) rl ud l r s sm v,
        RateControl.extractBucket h.user24 = none →
        RateControl.extractBucket h.app24 = some v →
        RateControl.parseRate (.mk (some h) rl ud l r s sm) = some v) ∧
    (∀ (h : RateControl.RateHeaders) rl ud l r s sm v,
        RateControl.extractBucket h.user24 = none →
        RateControl.extractBucket h.app24 = none →
        RateControl.extractBucket h.std = some v →
        RateControl.parseRate (.mk (some h) rl ud l r s sm) = some v) ∧
    (∀ hdrs sub ud l r s sm,
        RateControl.headersRate hdrs = none →
        RateControl.parseRate (.mk hdrs (.present sub) ud l r s sm) =
          RateControl.parseRate sub) ∧
    (∀ hdrs l r s sm,
        RateControl.headersRate hdrs = none →
        RateControl.parseRate (.mk hdrs .absent .absent l r s sm) =
          RateControl.bareRate l r s sm) := by
  refine ⟨?_, ?_, ?_, ?_, ?_⟩
  · intro h rl ud l r s sm v hu
    simp [parseRate_mk_eq, RateControl.headersRate, RateControl.headerRate, hu]
  · intro h rl ud l r s sm v hu ha
    simp [parseRate_mk_eq, RateControl.headersRate, RateControl.headerRate, hu, ha]
  · intro h rl ud l r s sm v hu ha hs
    simp [parseRate_mk_eq, RateControl.headersRate, RateControl.headerRate, hu, ha, hs]
  · intro hdrs sub ud l r s sm hh
    simp [parseRate_mk_eq, hh]
  · intro hdrs l r s sm hh
    simp [parseRate_mk_eq, hh]

/-- Witness for C7: with both a per-user-day and a generic bucket complete in
one response, parseRate returns the per-user-day values; and with the user and
app buckets unusable, the generic bucket's values are returned. -/
theorem claim_C7_witness :
    RateControl.parseRate c7raw =
      some { limit := some 100, remaining := some 40, reset := some 500,
             lastSpentAt := none, storedAt := none } ∧
    RateControl.parseRate
      (.mk (some { user24 := c7none, app24 := c7none, std := c7std })
        .absent .absent none none none none) =
      some { limit := some 900, remaining := some 800, reset := some 700,
             lastSpentAt := none, storedAt := none } :=
  ⟨claim_C7_parse_precedence.1 _ .absent .absent none none none none _ rfl,
   claim_C7_parse_precedence.2.2.1 _ .absent .absent none none none none _ rfl rfl rfl⟩

section StoreClaims

open Bot SqliteSaleRepository

/-- A selected row is a member of the scanned list. -/
theorem selectOldest_mem {l : List SaleRow} {r : SaleRow}
    (h : selectOldest l = some r) : r ∈ l := by
  induction l with
  | nil => simp [selectOldest] at h
  | cons a t ih =>
    simp only [selectOldest] at h
    split at h
    · simp at h
      simp [h]
    · split at h
      · simp at h
        subst h
        exact List.mem_cons_of_mem a (ih (by assumption))
      · simp at h
        simp [h]

/-- selectOldest finds a row on any non-empty list. -/
theorem selectOldest_none {l : List SaleRow} (h : selectOldest l = none) : l = [] := by
  cases l with
  | nil => rfl
  | cons a t =>
    simp only [selectOldest] at h
    split at h
    · simp at h
    · split at h <;> simp at h

/-- A selected row has minimal created_at over the scanned list. -/
theorem selectOldest_min {l : List SaleRow} {r : SaleRow}
    (h : selectOldest l = some r) : ∀ x ∈ l, r.createdAt ≤ x.createdAt := by
  induction l generalizing r with
  | nil => simp [selectOldest] at h
  | cons a t ih =>
    simp only [selectOldest] at h
    split at h
    · rename_i hnone
      have ht : t = [] := selectOldest_none hnone
      subst ht
      simp at h
      subst h
      intro x hx
      simp at hx
      subst hx
      exact le_refl _
    · rename_i b hb
      have hmin := ih hb
      split at h
      · rename_i hlt
        simp at h
        subst h
        intro x hx
        rcases List.mem_cons.mp hx with rfl | hx
        · exact le_of_lt hlt
        · exact hmin x hx
      · rename_i hnlt
        simp at h
        subst h
        intro x hx
        rcases List.mem_cons.mp hx with rfl | hx
        · exact le_refl _
        · exact le_trans (show a.createdAt ≤ b.createdAt by omega) (hmin _ hx)

/-- Mapping a function over a list is pointwise related to the original. -/
theorem forall2_map_fun {α : Type} (l : List α) (f : α → α) (P : α → α → Prop)
    (h : ∀ x, P x (f x)) : List.Forall₂ P l (l.map f) := by
  induction l with
  | nil => simp
  | cons a t ih => exact List.Forall₂.cons (h a) ih

end StoreClaims

section ClaimC1

open Bot SqliteSaleRepository

/-- A concrete domain sale used by the store scenarios. -/
def saleS1 : Sale :=
  { id := "s1"
    tokenId := "1"
    name := some "Test"
    timestamp := 1700000000
    price := { amount := 5, symbol := "ETH" }
    orderSide := "ask" }

/-- A store holding exactly one freshly enqueued sale. -/
def c1store : Store := (enqueueNew [saleS1] 1700000000 []).1

/-- C1 counterexample: claiming the single queued sale succeeds, but the stored
status is still `queued` — the conditional write stamps posting_at and does not
set the status to `posting` as the claim asserts. -/
theorem claim_C1_counterexample :
    (claimNextReady c1store 1700000100).2 =
      some (toQueuedSale (queuedRow saleS1 1700000000)) ∧
    (claimNextReady c1store 1700000100).1.map SaleRow.status = [Status.queued] ∧
    (claimNextReady c1store 1700000100).1.map SaleRow.postingAt = [some 1700000100] ∧
    Status.queued ≠ Status.posting := by
  refine ⟨by decide, by decide, by decide, by decide⟩

/-- C1 (amended): a successful claimNextReady returns the oldest ready sale and
stamps that sale's postingAt = now under the condition that the row still
matches the claim filter at write time, leaving every status unchanged; and
whenever the conditional write affects zero rows the call returns "no sale"
without retrying internally. -/
theorem claim_C1_claim_semantics :
    (∀ (s : Store) (now : Int) (s2 : Store) (q : QueuedSale),
        claimNextReady s now = (s2, some q) →
        ∃ row, row ∈ s ∧ ready now row = true ∧ q = toQueuedSale row ∧
          (∀ x ∈ s, ready now x = true → row.createdAt ≤ x.createdAt) ∧
          List.Forall₂ (fun old new =>
            new.status = old.status ∧
            (old.saleId = row.saleId ∧ ready now old = true →
              new = { old with postingAt := some now }) ∧
            (¬(old.saleId = row.saleId ∧ ready now old = true) → new = old)) s s2) ∧
    (∀ (sRead sWrite : Store) (now : Int) (row : SaleRow),
        claimSelect sRead now = some row →
        sWrite.filter (fun r => r.saleId == row.saleId && ready now r) = [] →
        (claimNextReady2 sRead sWrite now).2 = none) := by
  constructor
  · intro s now s2 q h
    cases hsel : claimSelect s now with
    | none =>
      simp only [claimNextReady, claimNextReady2, hsel] at h
      simp at h
    | some row =>
      simp only [claimNextReady, claimNextReady2, hsel] at h
      by_cases hz : (claimUpdate s row.saleId now).2 = 0
      · rw [if_pos hz] at h
        simp at h
      · rw [if_neg hz] at h
        have hs2 : (claimUpdate s row.saleId now).1 = s2 := congrArg Prod.fst h
        have hq : some (toQueuedSale row) = some q := congrArg Prod.snd h
        simp only [Option.some.injEq] at hq
        have hrowmem : row ∈ s.filter (ready now) :=
          selectOldest_mem (by simpa [claimSelect] using hsel)
        rw [List.mem_filter] at hrowmem
        refine ⟨row, hrowmem.1, hrowmem.2, hq.symm, ?_, ?_⟩
        · intro x hx hrx
          exact selectOldest_min (by simpa [claimSelect] using hsel) x
            (List.mem_filter.mpr ⟨hx, hrx⟩)
        · rw [← hs2]
          apply forall2_map_fun
          intro x
          by_cases hc : x.saleId == row.saleId && ready now x
          · rw [if_pos hc]
            simp only [Bool.and_eq_true, beq_iff_eq] at hc
            refine ⟨rfl, fun _ => rfl, fun hn => absurd hc hn⟩
          · rw [if_neg hc]
            simp only [Bool.and_eq_true, beq_iff_eq] at hc
            exact ⟨rfl, fun hmatch => absurd hmatch hc, fun _ => rfl⟩
  · intro sRead sWrite now row hsel hfil
    have hz : (claimUpdate sWrite row.saleId now).2 = 0 := by
      simp [claimUpdate, hfil]
    simp only [claimNextReady2, hsel]
    rw [if_pos hz]

/-- Witness for C1 (amended): a claim whose conditional write sees a store with
no matching row affects zero rows and returns "no sale". -/
theorem claim_C1_witness : (claimNextReady2 c1store [] 1700000100).2 = none :=
  claim_C1_claim_semantics.2 c1store [] 1700000100 (queuedRow saleS1 1700000000)
    (by decide) rfl

end ClaimC1

section ClaimC3C6

open Bot SqliteSaleRepository

/-- A store whose single sale has been moved to `posting` (mid-pipeline). -/
def c3store : Store :=
  updateStatus "s1" .posting (enqueueNew [saleS1] 1700000000 []).1

/-- C3: evaluation of requeueAfterRateLimit at the failing input.  The source's
repository revision takes no reset-time parameter; on a sale in `posting` it
leaves the status `posting` (not `queued`), clears nextAttemptAt to NULL
instead of setting the requested reset time, and leaves attemptCount at 0
instead of incrementing — contradicting the repository port, its caller, and
the repository test suite's expectations. -/
theorem claim_C3_code_behaviour :
    (requeueAfterRateLimit "s1" c3store).map
        (fun r => (r.status, r.nextAttemptAt, r.attemptCount, r.postingAt)) =
      [(Status.posting, none, some 0, none)] ∧
    Status.posting ≠ Status.queued ∧
    (scheduleRetry "s1" 1700003600 c3store).map
        (fun r => (r.status, r.nextAttemptAt, r.attemptCount, r.postingAt)) =
      [(Status.posting, some 1700003600, some 1, none)] := by
  refine ⟨by decide, by decide, by decide⟩

/-- The QueuedSale returned by the first claim of the C6 scenario. -/
def c6q1 : QueuedSale := toQueuedSale (queuedRow saleS1 1700000000)

/-- Store after the first transient failure at t = 1700000000. -/
def c6s1 : Store :=
  BotService.handleTransientFailure 1700000000 c6q1
    (claimNextReady c1store 1700000000).1

/-- The row as it stands after the first retry was scheduled. -/
def c6row1 : SaleRow :=
  { queuedRow saleS1 1700000000 with
    postingAt := none
    nextAttemptAt := some 1700000060
    attemptCount := some 1 }

/-- The QueuedSale returned by the second claim of the C6 scenario. -/
def c6q2 : QueuedSale := toQueuedSale c6row1

/-- Store after the second transient failure at t = 1700000060. -/
def c6s2 : Store :=
  BotService.handleTransientFailure 1700000060 c6q2
    (claimNextReady c6s1 1700000060).1

/-- C6: two consecutive non-rate-limit failures on the same sale (attemptCount
0 then 1 at failure time, incremented by scheduleRetry each time) produce
backoff delays of exactly 60 then 120 seconds, and no claim can return the
sale before the scheduled next attempt time. -/
theorem claim_C6_backoff_60_then_120 :
    BotService.computeBackoffSeconds 0 = 60 ∧
    BotService.computeBackoffSeconds 1 = 120 ∧
    (claimNextReady c1store 1700000000).2 = some c6q1 ∧
    c6q1.attemptCount = 0 ∧
    c6s1.map (fun r => (r.nextAttemptAt, r.attemptCount)) =
      [(some (1700000000 + 60), some 1)] ∧
    (claimNextReady c6s1 1700000060).2 = some c6q2 ∧
    c6q2.attemptCount = 1 ∧
    c6s2.map (fun r => r.nextAttemptAt) = [some (1700000060 + 120)] ∧
    (∀ t : Int, t < 1700000060 + 120 → (claimNextReady c6s2 t).2 = none) := by
  refine ⟨by decide, by decide, by decide, by decide, by decide, by decide,
    by decide, by decide, ?_⟩
  intro t ht
  have hrows : ∀ r ∈ c6s2, r.nextAttemptAt = some 1700000180 := by decide
  have hfil : c6s2.filter (ready t) = [] := by
    rw [List.filter_eq_nil_iff]
    intro a ha
    have hna := hrows a ha
    simp only [ready, hna, Bool.and_eq_true, decide_eq_true_eq]
    rintro ⟨-, h2⟩
    omega
  simp [claimNextReady, claimNextReady2, claimSelect, hfil, selectOldest]

/-- Witness for C6: the third attempt is not claimable at a concrete time
before the second backoff elapses. -/
theorem claim_C6_witness :
    (claimNextReady c6s2 1700000179).2 = none ∧
    BotService.computeBackoffSeconds 0 = 60 :=
  ⟨claim_C6_backoff_60_then_120.2.2.2.2.2.2.2.2 1700000179 (by decide),
   claim_C6_backoff_60_then_120.1⟩

end ClaimC3C6

section ClaimC2

open Bot SqliteSaleRepository

/-- The stored sale ids, in row order. -/
def ids (s : Store) : List String := s.map SaleRow.saleId

/-- One ingestion call: seedSeen or enqueueNew. -/
inductive IngestOp where
  | seed (sales : List Sale) (seenAt : Int)
  | enq (sales : List Sale) (seenAt : Int)

/-- Apply one ingestion call to the store. -/
def applyIngest : IngestOp → Store → Store
  | .seed sales t, s => seedSeen sales t s
  | .enq sales t, s => (enqueueNew sales t s).1

/-- Run a sequence of ingestion calls. -/
def runIngest : List IngestOp → Store → Store
  | [], s => s
  | op :: rest, s => runIngest rest (applyIngest op s)

/-- hasId decides membership in the stored ids. -/
theorem hasId_iff {s : Store} {id : String} : hasId s id = true ↔ id ∈ ids s := by
  simp [hasId, ids, List.any_eq_true, List.mem_map]

/-- INSERT OR IGNORE either leaves the store alone (id present) or appends the
new row (id absent). -/
theorem insertIfAbsent_cases (s : Store) (row : SaleRow) :
    (row.saleId ∈ ids s ∧ insertIfAbsent s row = (s, 0)) ∨
    (row.saleId ∉ ids s ∧ insertIfAbsent s row = (s ++ [row], 1)) := by
  by_cases h : hasId s row.saleId
  · exact Or.inl ⟨hasId_iff.mp h, by simp [insertIfAbsent, h]⟩
  · refine Or.inr ⟨fun hmem => h (hasId_iff.mpr hmem), by simp [insertIfAbsent, h]⟩

/-- enqueueNew appends exactly the rows it reports inserted: all of them
`queued` with attemptCount 0 and with ids not previously stored. -/
theorem enqueueNew_extends : ∀ (sales : List Sale) (t : Int) (s : Store),
    ∃ tail, (enqueueNew sales t s).1 = s ++ tail ∧
      (enqueueNew sales t s).2 = tail.length ∧
      ∀ r ∈ tail, r.saleId ∉ ids s ∧ r.status = Status.queued ∧
        r.attemptCount = some 0 ∧ r.nextAttemptAt = some 0 := by
  intro sales
  induction sales with
  | nil =>
    intro t s
    exact ⟨[], by simp [enqueueNew], by simp [enqueueNew], by simp⟩
  | cons sale rest ih =>
    intro t s
    rcases insertIfAbsent_cases s (queuedRow sale t) with ⟨hdup, hins⟩ | ⟨hnew, hins⟩
    · obtain ⟨tail, h1, h2, h3⟩ := ih t s
      refine ⟨tail, ?_, ?_, h3⟩
      · simp only [enqueueNew, hins]
        exact h1
      · simp only [enqueueNew, hins]
        simpa using h2
    · obtain ⟨tail, h1, h2, h3⟩ := ih t (s ++ [queuedRow sale t])
      refine ⟨queuedRow sale t :: tail, ?_, ?_, ?_⟩
      · simp only [enqueueNew, hins]
        rw [h1]
        simp
      · simp only [enqueueNew, hins]
        rw [h2]
        simp [Nat.add_comm]
      · intro r hr
        rcases List.mem_cons.mp hr with rfl | hr
        · exact ⟨hnew, rfl, rfl, rfl⟩
        · obtain ⟨hnot, hq, ha, hn⟩ := h3 r hr
          refine ⟨fun hmem => hnot ?_, hq, ha, hn⟩
          simp [ids] at hmem ⊢
          rcases hmem with ⟨x, hx, he⟩
          exact Or.inl ⟨x, hx, he⟩

/-- seedSeen appends only rows whose ids were not previously stored. -/
theorem seedSeen_extends : ∀ (sales : List Sale) (t : Int) (s : Store),
    ∃ tail, seedSeen sales t s = s ++ tail ∧ ∀ r ∈ tail, r.saleId ∉ ids s := by
  intro sales
  induction sales with
  | nil =>
    intro t s
    exact ⟨[], by simp [seedSeen], by simp⟩
  | cons sale rest ih =>
    intro t s
    rcases insertIfAbsent_cases s (seenRow sale t) with ⟨hdup, hins⟩ | ⟨hnew, hins⟩
    · obtain ⟨tail, h1, h3⟩ := ih t s
      refine ⟨tail, ?_, h3⟩
      simp only [seedSeen, hins]
      exact h1
    · obtain ⟨tail, h1, h3⟩ := ih t (s ++ [seenRow sale t])
      refine ⟨seenRow sale t :: tail, ?_, ?_⟩
      · simp only [seedSeen, hins]
        rw [h1]
        simp
      · intro r hr
        rcases List.mem_cons.mp hr with rfl | hr
        · exact hnew
        · intro hmem
          apply h3 r hr
          simp [ids] at hmem ⊢
          rcases hmem with ⟨x, hx, he⟩
          exact Or.inl ⟨x, hx, he⟩

/-- Inserting if absent preserves distinctness of stored ids. -/
theorem nodup_insertIfAbsent {s : Store} {row : SaleRow}
    (h : (ids s).Nodup) : (ids (insertIfAbsent s row).1).Nodup := by
  rcases insertIfAbsent_cases s row with ⟨-, hins⟩ | ⟨hnew, hins⟩
  · rw [hins]
    exact h
  · rw [hins]
    simp only [ids, List.map_append, List.map_cons, List.map_nil]
    rw [List.nodup_append]
    exact ⟨h, List.nodup_singleton _, by
      intro x hx hx1
      simp at hx1
      subst hx1
      exact hnew hx⟩

/-- enqueueNew preserves distinctness of stored ids. -/
theorem nodup_enqueueNew : ∀ (sales : List Sale) (t : Int) (s : Store),
    (ids s).Nodup → (ids (enqueueNew sales t s).1).Nodup := by
  intro sales
  induction sales with
  | nil =>
    intro t s h
    simpa [enqueueNew] using h
  | cons sale rest ih =>
    intro t s h
    simp only [enqueueNew]
    exact ih t _ (nodup_insertIfAbsent h)

/-- seedSeen preserves distinctness of stored ids. -/
theorem nodup_seedSeen : ∀ (sales : List Sale) (t : Int) (s : Store),
    (ids s).Nodup → (ids (seedSeen sales t s)).Nodup := by
  intro sales
  induction sales with
  | nil =>
    intro t s h
    simpa [seedSeen] using h
  | cons sale rest ih =>
    intro t s h
    simp only [seedSeen]
    exact ih t _ (nodup_insertIfAbsent h)

/-- Any sequence of ingestion calls preserves distinctness of stored ids. -/
theorem nodup_runIngest : ∀ (ops : List IngestOp) (s : Store),
    (ids s).Nodup → (ids (runIngest ops s)).Nodup := by
  intro ops
  induction ops with
  | nil =>
    intro s h
    simpa [runIngest] using h
  | cons op rest ih =>
    intro s h
    simp only [runIngest]
    apply ih
    cases op with
    | seed sales t => exact nodup_seedSeen sales t s h
    | enq sales t => exact nodup_enqueueNew sales t s h

/-- An id already stored is never touched by a later ingestion call: the rows
carrying it are exactly the rows that carried it before. -/
theorem applyIngest_preserves_existing (op : IngestOp) (s : Store) (id : String)
    (h : id ∈ ids s) :
    (applyIngest op s).filter (fun r => r.saleId == id) =
      s.filter (fun r => r.saleId == id) := by
  have key : ∀ (s2 : Store) (tail : List SaleRow), applyIngest op s = s2 ++ tail →
      s2 = s → (∀ r ∈ tail, r.saleId ∉ ids s) →
      (applyIngest op s).filter (fun r => r.saleId == id) =
        s.filter (fun r => r.saleId == id) := by
    intro s2 tail heq hs2 htail
    subst hs2
    rw [heq, List.filter_append]
    have : tail.filter (fun r => r.saleId == id) = [] := by
      rw [List.filter_eq_nil_iff]
      intro a ha
      simp only [beq_iff_eq]
      intro hae
      exact htail a ha (hae ▸ h)
    rw [this, List.append_nil]
  cases op with
  | seed sales t =>
    obtain ⟨tail, h1, h3⟩ := seedSeen_extends sales t s
    exact key s tail h1 rfl h3
  | enq sales t =>
    obtain ⟨tail, h1, h2, h3⟩ := enqueueNew_extends sales t s
    exact key s tail h1 rfl (fun r hr => (h3 r hr).1)

/-- C2: ingestion is idempotent on sale id.  Any sequence of seedSeen and
enqueueNew calls keeps stored ids distinct (exactly one row per id); an id
already stored is never inserted again (its rows are untouched); and
enqueueNew returns exactly the number of rows it actually appended, each of
them `queued` with attemptCount 0 — duplicate ids, in the store or within the
batch, are not counted. -/
theorem claim_C2_idempotent_ingestion :
    (∀ (ops : List IngestOp) (s : Store), (ids s).Nodup →
        (ids (runIngest ops s)).Nodup) ∧
    (∀ (op : IngestOp) (s : Store) (id : String), id ∈ ids s →
        (applyIngest op s).filter (fun r => r.saleId == id) =
          s.filter (fun r => r.saleId == id)) ∧
    (∀ (sales : List Sale) (t : Int) (s : Store), ∃ tail,
        (enqueueNew sales t s).1 = s ++ tail ∧
        (enqueueNew sales t s).2 = tail.length ∧
        ∀ r ∈ tail, r.saleId ∉ ids s ∧ r.status = Status.queued ∧
          r.attemptCount = some 0 ∧ r.nextAttemptAt = some 0) :=
  ⟨nodup_runIngest, applyIngest_preserves_existing, enqueueNew_extends⟩

/-- Witness for C2: enqueueing the same sale twice (in one batch and again in
a later call) leaves one row for its id, and re-ingesting an already stored id
leaves its rows untouched. -/
theorem claim_C2_witness :
    (ids (runIngest [IngestOp.enq [saleS1, saleS1] 5, IngestOp.seed [saleS1] 6] [])).Nodup ∧
    (applyIngest (IngestOp.enq [saleS1] 7) c1store).filter
        (fun r => r.saleId == "s1") =
      c1store.filter (fun r => r.saleId == "s1") :=
  ⟨claim_C2_idempotent_ingestion.1 _ [] (by decide),
   claim_C2_idempotent_ingestion.2.1 _ c1store "s1" (by decide)⟩

end ClaimC2
